import Mathlib

/-!
Verification model of the ttl2html triple-to-document transformation.

The repository (src/src/main.rs and src/src/parser.rs, two near-duplicate
copies; parser.rs is the complete one, carrying the object_link field, and is
embedded here) converts RDF Turtle files into HTML pages.  This file gives a
shallow embedding of the pure core: the Triple record, link resolution
(update_triple_with_links), grouping by subject plus sorting (the tail of
convert_file), and the per-file error handling of main.

Modelling conventions:
* Rust String is Lean String.  Rust compares strings byte-wise on UTF-8,
  which coincides with comparison of unicode codepoints, so the lexicographic
  order used below (lexLe on the codepoint list) matches String::cmp.
* Rust str::replace(pat, "") removes every leftmost non-overlapping
  occurrence of pat; removeAll below is a fuel-based structural embedding of
  that loop (fuel = input length always suffices, each step consumes at least
  one character).
* is_valid_url delegates to the external url crate (Url::parse); the crate is
  not part of the repository, so universal theorems quantify over an
  arbitrary validity oracle validUrl, and concrete instances use the
  spec-modelled isAbsUrlModel below.
* Rust's slice sort_by with a.subject.cmp(&b.subject) is a comparison sort by
  subject; since the grouping map has pairwise distinct keys, every
  comparison sort produces the same list, and we embed it as an insertion
  sort (sortGroups) by the same key.
-/

/-- The Triple record of src/src/parser.rs (lines 15-25): one RDF statement
together with its link-resolution state. -/
structure Triple where
  subject : String
  predicate : String
  object : String
  subject_link : Option String
  subject_label : String
  predicate_link : Option String
  object_link : Option String
deriving DecidableEq, Repr

/-- The Default impl for Triple (src/src/parser.rs lines 27-39). -/
def defaultTriple : Triple :=
  { subject := ""
    predicate := ""
    object := ""
    predicate_link := none
    subject_link := none
    subject_label := ""
    object_link := none }

/-- The SubjectGroup record of src/src/parser.rs (lines 41-47). -/
structure SubjectGroup where
  subject : String
  subject_label : String
  subject_link : Option String
  triples : List Triple
deriving DecidableEq, Repr

/-- The IndexEntry record of src/src/parser.rs (lines 49-53). -/
structure IndexEntry where
  path : String
  name : String
deriving DecidableEq, Repr

/-- Embedding of Rust str::starts_with on strings: the pattern's codepoint
list is a prefix of the value's codepoint list. -/
def strStartsWith (s pat : String) : Bool :=
  pat.data.isPrefixOf s.data

/-- Worker of removeAll.  Scans the character list left to right; on a full
match of the (nonempty) pattern it drops the matched characters and
continues after them, otherwise it keeps one character and moves on.  This is
exactly the leftmost non-overlapping scan of Rust str::replace with an empty
replacement.  Each step consumes at least one character, so fuel equal to the
list length suffices; fuel only makes the recursion structural. -/
def removeAllAux (pat : List Char) : Nat → List Char → List Char
  | _, [] => []
  | 0, l => l
  | fuel + 1, c :: cs =>
    if pat.isPrefixOf (c :: cs) then
      removeAllAux pat fuel (List.drop (pat.length - 1) cs)
    else
      c :: removeAllAux pat fuel cs

/-- Embedding of Rust `value.replace(pat, "")` (used in
update_triple_with_links): every leftmost non-overlapping occurrence of pat
is removed.  An empty pattern leaves the string unchanged, as in Rust where
replacing the empty pattern by the empty string is the identity. -/
def removeAll (s pat : String) : String :=
  if pat.data.isEmpty then s else ⟨removeAllAux pat.data s.data.length s.data⟩

/-- Helper for isAbsUrlModel: scans the remainder of a scheme, accepting once
a colon is reached. -/
def schemeTail : List Char → Bool
  | [] => false
  | c :: cs =>
    if c = ':' then true
    else (c.isAlphanum || c = '+' || c = '-' || c = '.') && schemeTail cs

/-- Modelled from the spec: is_valid_url (src/src/parser.rs line 208) wraps
Url::parse of the external url crate, which is not part of the repository;
the spec calls its successes "syntactically valid absolute URLs".  The model
accepts exactly the strings that begin with a scheme: an ASCII letter
followed by letters, digits, '+', '-' or '.', then a colon.  Every concrete
string this file feeds to the model is classified as Url::parse would
classify it. -/
def isAbsUrlModel (s : String) : Bool :=
  match s.data with
  | [] => false
  | c :: cs => c.isAlpha && schemeTail cs

/-- First block of update_triple_with_links (src/src/parser.rs lines 62-71):
if the subject is a valid URL, scan the prefix list in order and on the first
match record the full subject as subject_link and the replace-all-shortened
subject as subject_label; the subject field itself is never written. -/
def updateSubject (validUrl : String → Bool) (prefixes : List String) (t : Triple) : Triple :=
  if validUrl t.subject then
    match prefixes.find? (fun p => strStartsWith t.subject p) with
    | some p =>
      { t with subject_link := some t.subject, subject_label := removeAll t.subject p }
    | none => t
  else t

/-- Second block of update_triple_with_links (src/src/parser.rs lines 73-82):
on the first matching prefix the full predicate is recorded as
predicate_link and the predicate field itself is rewritten to the shortened
form. -/
def updatePredicate (validUrl : String → Bool) (prefixes : List String) (t : Triple) : Triple :=
  if validUrl t.predicate then
    match prefixes.find? (fun p => strStartsWith t.predicate p) with
    | some p =>
      { t with predicate_link := some t.predicate, predicate := removeAll t.predicate p }
    | none => t
  else t

/-- Third block of update_triple_with_links (src/src/parser.rs lines 84-93):
same as the predicate block, for the object field. -/
def updateObject (validUrl : String → Bool) (prefixes : List String) (t : Triple) : Triple :=
  if validUrl t.object then
    match prefixes.find? (fun p => strStartsWith t.object p) with
    | some p =>
      { t with object_link := some t.object, object := removeAll t.object p }
    | none => t
  else t

/-- update_triple_with_links (src/src/parser.rs lines 61-94): the three field
blocks run in sequence on the same record. -/
def update_triple_with_links (validUrl : String → Bool) (prefixes : List String)
    (t : Triple) : Triple :=
  updateObject validUrl prefixes (updatePredicate validUrl prefixes (updateSubject validUrl prefixes t))

/-- The triple built by convert_file's parse callback for the scenario input
(<http://ex.org/Alice>, <http://ex.org/name>, "Alice"): subject_label starts
as the raw subject and all links start unset (src/src/parser.rs lines
124-132). -/
def tAlice : Triple :=
  { subject := "http://ex.org/Alice"
    predicate := "http://ex.org/name"
    object := "Alice"
    subject_link := none
    subject_label := "http://ex.org/Alice"
    predicate_link := none
    object_link := none }

/-- A fresh triple whose subject contains the matched prefix twice. -/
def tTwice : Triple :=
  { defaultTriple with
      subject := "http://ex.org/http://ex.org/x"
      subject_label := "http://ex.org/http://ex.org/x" }

/-- Prefix list exhibiting non-idempotence of link resolution. -/
def psChain : List String := ["http://a.example/", "http://b.example/"]

/-- A fresh triple whose predicate, once shortened by the first prefix of
psChain, is again a valid URL matching the second prefix of psChain. -/
def tChain : Triple :=
  { defaultTriple with
      subject := "s"
      subject_label := "s"
      predicate := "http://a.example/http://b.example/x"
      object := "o" }

/-- The subject block writes no field other than subject_link and
subject_label. -/
theorem updateSubject_subject (v : String → Bool) (ps : List String) (t : Triple) :
    (updateSubject v ps t).subject = t.subject := by
  unfold updateSubject
  split
  · split <;> rfl
  · rfl

theorem updateSubject_predicate (v : String → Bool) (ps : List String) (t : Triple) :
    (updateSubject v ps t).predicate = t.predicate := by
  unfold updateSubject
  split
  · split <;> rfl
  · rfl

theorem updateSubject_predicate_link (v : String → Bool) (ps : List String) (t : Triple) :
    (updateSubject v ps t).predicate_link = t.predicate_link := by
  unfold updateSubject
  split
  · split <;> rfl
  · rfl

theorem updateSubject_object (v : String → Bool) (ps : List String) (t : Triple) :
    (updateSubject v ps t).object = t.object := by
  unfold updateSubject
  split
  · split <;> rfl
  · rfl

theorem updateSubject_object_link (v : String → Bool) (ps : List String) (t : Triple) :
    (updateSubject v ps t).object_link = t.object_link := by
  unfold updateSubject
  split
  · split <;> rfl
  · rfl

/-- The predicate block writes no field other than predicate and
predicate_link. -/
theorem updatePredicate_subject (v : String → Bool) (ps : List String) (t : Triple) :
    (updatePredicate v ps t).subject = t.subject := by
  unfold updatePredicate
  split
  · split <;> rfl
  · rfl

theorem updatePredicate_subject_label (v : String → Bool) (ps : List String) (t : Triple) :
    (updatePredicate v ps t).subject_label = t.subject_label := by
  unfold updatePredicate
  split
  · split <;> rfl
  · rfl

theorem updatePredicate_subject_link (v : String → Bool) (ps : List String) (t : Triple) :
    (updatePredicate v ps t).subject_link = t.subject_link := by
  unfold updatePredicate
  split
  · split <;> rfl
  · rfl

theorem updatePredicate_object (v : String → Bool) (ps : List String) (t : Triple) :
    (updatePredicate v ps t).object = t.object := by
  unfold updatePredicate
  split
  · split <;> rfl
  · rfl

theorem updatePredicate_object_link (v : String → Bool) (ps : List String) (t : Triple) :
    (updatePredicate v ps t).object_link = t.object_link := by
  unfold updatePredicate
  split
  · split <;> rfl
  · rfl

/-- The object block writes no field other than object and object_link. -/
theorem updateObject_subject (v : String → Bool) (ps : List String) (t : Triple) :
    (updateObject v ps t).subject = t.subject := by
  unfold updateObject
  split
  · split <;> rfl
  · rfl

theorem updateObject_subject_label (v : String → Bool) (ps : List String) (t : Triple) :
    (updateObject v ps t).subject_label = t.subject_label := by
  unfold updateObject
  split
  · split <;> rfl
  · rfl

theorem updateObject_subject_link (v : String → Bool) (ps : List String) (t : Triple) :
    (updateObject v ps t).subject_link = t.subject_link := by
  unfold updateObject
  split
  · split <;> rfl
  · rfl

theorem updateObject_predicate (v : String → Bool) (ps : List String) (t : Triple) :
    (updateObject v ps t).predicate = t.predicate := by
  unfold updateObject
  split
  · split <;> rfl
  · rfl

theorem updateObject_predicate_link (v : String → Bool) (ps : List String) (t : Triple) :
    (updateObject v ps t).predicate_link = t.predicate_link := by
  unfold updateObject
  split
  · split <;> rfl
  · rfl

/-- Behaviour of the subject block when the subject is a valid URL and some
listed prefix matches it first. -/
theorem updateSubject_match (v : String → Bool) (ps : List String) (t : Triple) (p : String)
    (hv : v t.subject = true)
    (hf : List.find? (fun q => strStartsWith t.subject q) ps = some p) :
    updateSubject v ps t =
      { t with subject_link := some t.subject, subject_label := removeAll t.subject p } := by
  simp [updateSubject, hv, hf]

/-- Behaviour of the subject block when the subject is not a valid URL or no
listed prefix matches it. -/
theorem updateSubject_nomatch (v : String → Bool) (ps : List String) (t : Triple)
    (h : v t.subject = false ∨ List.find? (fun q => strStartsWith t.subject q) ps = none) :
    updateSubject v ps t = t := by
  rcases h with h | h
  · simp [updateSubject, h]
  · cases hv : v t.subject <;> simp [updateSubject, hv, h]

/-- Behaviour of the predicate block on a first matching prefix. -/
theorem updatePredicate_match (v : String → Bool) (ps : List String) (t : Triple) (p : String)
    (hv : v t.predicate = true)
    (hf : List.find? (fun q => strStartsWith t.predicate q) ps = some p) :
    updatePredicate v ps t =
      { t with predicate_link := some t.predicate, predicate := removeAll t.predicate p } := by
  simp [updatePredicate, hv, hf]

/-- Behaviour of the predicate block when nothing matches. -/
theorem updatePredicate_nomatch (v : String → Bool) (ps : List String) (t : Triple)
    (h : v t.predicate = false ∨ List.find? (fun q => strStartsWith t.predicate q) ps = none) :
    updatePredicate v ps t = t := by
  rcases h with h | h
  · simp [updatePredicate, h]
  · cases hv : v t.predicate <;> simp [updatePredicate, hv, h]

/-- Behaviour of the object block on a first matching prefix. -/
theorem updateObject_match (v : String → Bool) (ps : List String) (t : Triple) (p : String)
    (hv : v t.object = true)
    (hf : List.find? (fun q => strStartsWith t.object q) ps = some p) :
    updateObject v ps t =
      { t with object_link := some t.object, object := removeAll t.object p } := by
  simp [updateObject, hv, hf]

/-- Behaviour of the object block when nothing matches. -/
theorem updateObject_nomatch (v : String → Bool) (ps : List String) (t : Triple)
    (h : v t.object = false ∨ List.find? (fun q => strStartsWith t.object q) ps = none) :
    updateObject v ps t = t := by
  rcases h with h | h
  · simp [updateObject, h]
  · cases hv : v t.object <;> simp [updateObject, hv, h]

/-- Fuel is irrelevant to removeAllAux once it covers the length of the
scanned list. -/
theorem removeAllAux_fuel (pat : List Char) :
    ∀ (f1 f2 : Nat) (l : List Char), l.length ≤ f1 → l.length ≤ f2 →
      removeAllAux pat f1 l = removeAllAux pat f2 l := by
  intro f1
  induction f1 with
  | zero =>
    intro f2 l h1 h2
    have : l = [] := List.eq_nil_of_length_eq_zero (Nat.le_zero.mp h1)
    subst this
    cases f2 <;> rfl
  | succ f ih =>
    intro f2 l h1 h2
    cases l with
    | nil => cases f2 <;> rfl
    | cons c cs =>
      cases f2 with
      | zero => exact absurd h2 (by simp)
      | succ f2 =>
        simp only [removeAllAux]
        split
        · apply ih
          · have := List.length_drop (pat.length - 1) cs
            have hc : cs.length ≤ f := by
              simpa using Nat.le_of_succ_le_succ h1
            omega
          · have := List.length_drop (pat.length - 1) cs
            have hc : cs.length ≤ f2 := by
              simpa using Nat.le_of_succ_le_succ h2
            omega
        · have hc1 : cs.length ≤ f := by simpa using Nat.le_of_succ_le_succ h1
          have hc2 : cs.length ≤ f2 := by simpa using Nat.le_of_succ_le_succ h2
          rw [ih f2 cs hc1 hc2]

/-- Whether pat occurs as a contiguous run inside the list. -/
def occursB (pat : List Char) : List Char → Bool
  | [] => pat.isEmpty
  | c :: cs => pat.isPrefixOf (c :: cs) || occursB pat cs

/-- Unfolding of the scan on a position where the pattern matches. -/
theorem removeAllAux_cons_match (pat : List Char) (fuel : Nat) (c : Char) (cs : List Char)
    (h : pat.isPrefixOf (c :: cs) = true) :
    removeAllAux pat (fuel + 1) (c :: cs) =
      removeAllAux pat fuel (List.drop (pat.length - 1) cs) := by
  simp [removeAllAux, h]

/-- Unfolding of the scan on a position where the pattern does not match. -/
theorem removeAllAux_cons_nomatch (pat : List Char) (fuel : Nat) (c : Char) (cs : List Char)
    (h : pat.isPrefixOf (c :: cs) = false) :
    removeAllAux pat (fuel + 1) (c :: cs) = c :: removeAllAux pat fuel cs := by
  simp [removeAllAux, h]

/-- The scan leaves a list without an occurrence of the pattern unchanged. -/
theorem removeAllAux_of_not_occurs (pat : List Char) :
    ∀ (fuel : Nat) (l : List Char), occursB pat l = false →
      removeAllAux pat fuel l = l := by
  intro fuel
  induction fuel with
  | zero => intro l h; cases l <;> rfl
  | succ f ih =>
    intro l h
    cases l with
    | nil => rfl
    | cons c cs =>
      simp only [occursB, Bool.or_eq_false_iff] at h
      rw [removeAllAux_cons_nomatch pat f c cs h.1, ih cs h.2]

/-- Strings without an occurrence of the pattern are left unchanged by
removeAll. -/
theorem removeAll_of_not_occurs (s pat : String)
    (h : occursB pat.data s.data = false) : removeAll s pat = s := by
  unfold removeAll
  split
  · rfl
  · rw [removeAllAux_of_not_occurs pat.data s.data.length s.data h]

/-- A leading occurrence of the (nonempty) pattern is removed whole and the
removal continues after it: the scan removes every leftmost non-overlapping
occurrence, not only the first one. -/
theorem removeAll_append_self (pat s : String) (h : pat.data ≠ []) :
    removeAll (pat ++ s) pat = removeAll s pat := by
  unfold removeAll
  cases hpd : pat.data with
  | nil => exact absurd hpd h
  | cons c cs =>
    simp only [hpd, List.isEmpty_cons, if_false, Bool.false_eq_true, String.data_append]
    congr 1
    have hpre : (c :: cs).isPrefixOf (c :: (cs ++ s.data)) = true := by
      rw [List.isPrefixOf_iff_prefix, ← List.cons_append]
      exact List.prefix_append (c :: cs) s.data
    have hdrop : List.drop ((c :: cs).length - 1) (cs ++ s.data) = s.data := by
      simp only [List.length_cons, Nat.add_sub_cancel]
      exact List.drop_left cs s.data
    have hlen : ((c :: cs) ++ s.data).length = (cs.length + s.data.length) + 1 := by
      simp [List.length_append, List.length_cons]
    calc removeAllAux (c :: cs) ((c :: cs) ++ s.data).length ((c :: cs) ++ s.data)
        = removeAllAux (c :: cs) ((cs.length + s.data.length) + 1)
            (c :: (cs ++ s.data)) := by rw [hlen, List.cons_append]
      _ = removeAllAux (c :: cs) (cs.length + s.data.length)
            (List.drop ((c :: cs).length - 1) (cs ++ s.data)) :=
            removeAllAux_cons_match (c :: cs) (cs.length + s.data.length) c (cs ++ s.data) hpre
      _ = removeAllAux (c :: cs) (cs.length + s.data.length) s.data := by rw [hdrop]
      _ = removeAllAux (c :: cs) s.data.length s.data := by
            apply removeAllAux_fuel <;> omega

/-- When everything before a in the list fails the test and a passes it,
find? returns a: the scan stops at the first hit in iteration order. -/
theorem find?_of_split {α : Type} (p : α → Bool) (a : α) :
    ∀ (l1 l2 : List α), (∀ x ∈ l1, p x = false) → p a = true →
      (l1 ++ a :: l2).find? p = some a := by
  intro l1
  induction l1 with
  | nil => intro l2 _ ha; simpa using List.find?_cons_of_pos l2 ha
  | cons b l1 ih =>
    intro l2 hall ha
    have hb : p b = false := hall b (by simp)
    rw [List.cons_append, List.find?_cons_of_neg _ (by simp [hb])]
    exact ih l2 (fun x hx => hall x (by simp [hx])) ha

/-- The full update never rewrites the subject field itself. -/
theorem update_subject_eq (v : String → Bool) (ps : List String) (t : Triple) :
    (update_triple_with_links v ps t).subject = t.subject := by
  unfold update_triple_with_links
  rw [updateObject_subject, updatePredicate_subject, updateSubject_subject]

/-- Full-update behaviour on the subject field when a prefix matches. -/
theorem update_match_subject (v : String → Bool) (ps : List String) (t : Triple) (p : String)
    (hv : v t.subject = true)
    (hf : List.find? (fun q => strStartsWith t.subject q) ps = some p) :
    (update_triple_with_links v ps t).subject_label = removeAll t.subject p ∧
    (update_triple_with_links v ps t).subject_link = some t.subject := by
  unfold update_triple_with_links
  rw [updateObject_subject_label, updatePredicate_subject_label,
    updateObject_subject_link, updatePredicate_subject_link,
    updateSubject_match v ps t p hv hf]
  exact ⟨rfl, rfl⟩

/-- Full-update behaviour on the subject field when nothing matches. -/
theorem update_nomatch_subject (v : String → Bool) (ps : List String) (t : Triple)
    (h : v t.subject = false ∨ List.find? (fun q => strStartsWith t.subject q) ps = none) :
    (update_triple_with_links v ps t).subject_label = t.subject_label ∧
    (update_triple_with_links v ps t).subject_link = t.subject_link := by
  unfold update_triple_with_links
  rw [updateObject_subject_label, updatePredicate_subject_label,
    updateObject_subject_link, updatePredicate_subject_link,
    updateSubject_nomatch v ps t h]
  exact ⟨rfl, rfl⟩

/-- Full-update behaviour on the predicate field when a prefix matches. -/
theorem update_match_predicate (v : String → Bool) (ps : List String) (t : Triple) (p : String)
    (hv : v t.predicate = true)
    (hf : List.find? (fun q => strStartsWith t.predicate q) ps = some p) :
    (update_triple_with_links v ps t).predicate = removeAll t.predicate p ∧
    (update_triple_with_links v ps t).predicate_link = some t.predicate := by
  unfold update_triple_with_links
  have h1 : (updateSubject v ps t).predicate = t.predicate := updateSubject_predicate v ps t
  rw [updateObject_predicate, updateObject_predicate_link,
    updatePredicate_match v ps (updateSubject v ps t) p (by rw [h1]; exact hv)
      (by rw [h1]; exact hf)]
  simp [h1]

/-- Full-update behaviour on the predicate field when nothing matches. -/
theorem update_nomatch_predicate (v : String → Bool) (ps : List String) (t : Triple)
    (h : v t.predicate = false ∨
      List.find? (fun q => strStartsWith t.predicate q) ps = none) :
    (update_triple_with_links v ps t).predicate = t.predicate ∧
    (update_triple_with_links v ps t).predicate_link = t.predicate_link := by
  unfold update_triple_with_links
  have h1 : (updateSubject v ps t).predicate = t.predicate := updateSubject_predicate v ps t
  rw [updateObject_predicate, updateObject_predicate_link,
    updatePredicate_nomatch v ps (updateSubject v ps t) (by rw [h1]; exact h)]
  rw [h1, updateSubject_predicate_link]
  exact ⟨rfl, rfl⟩

/-- Full-update behaviour on the object field when a prefix matches. -/
theorem update_match_object (v : String → Bool) (ps : List String) (t : Triple) (p : String)
    (hv : v t.object = true)
    (hf : List.find? (fun q => strStartsWith t.object q) ps = some p) :
    (update_triple_with_links v ps t).object = removeAll t.object p ∧
    (update_triple_with_links v ps t).object_link = some t.object := by
  unfold update_triple_with_links
  have h1 : (updatePredicate v ps (updateSubject v ps t)).object = t.object := by
    rw [updatePredicate_object, updateSubject_object]
  rw [updateObject_match v ps (updatePredicate v ps (updateSubject v ps t)) p
    (by rw [h1]; exact hv) (by rw [h1]; exact hf)]
  simp [h1]

/-- Full-update behaviour on the object field when nothing matches. -/
theorem update_nomatch_object (v : String → Bool) (ps : List String) (t : Triple)
    (h : v t.object = false ∨ List.find? (fun q => strStartsWith t.object q) ps = none) :
    (update_triple_with_links v ps t).object = t.object ∧
    (update_triple_with_links v ps t).object_link = t.object_link := by
  unfold update_triple_with_links
  have h1 : (updatePredicate v ps (updateSubject v ps t)).object = t.object := by
    rw [updatePredicate_object, updateSubject_object]
  rw [updateObject_nomatch v ps (updatePredicate v ps (updateSubject v ps t))
    (by rw [h1]; exact h)]
  rw [h1, updatePredicate_object_link, updateSubject_object_link]
  exact ⟨rfl, rfl⟩

/-- Claim C1 fails on the code as stated: for the subject
"http://ex.org/http://ex.org/x", which is a valid absolute URL containing
the matched prefix "http://ex.org/" twice, removing only the first
occurrence would display "http://ex.org/x", but update_triple_with_links
uses Rust replace and displays "x", with both occurrences removed. -/
theorem C1_counterexample :
    (update_triple_with_links isAbsUrlModel ["http://ex.org/"] tTwice).subject_label = "x" ∧
    (update_triple_with_links isAbsUrlModel ["http://ex.org/"] tTwice).subject_label ≠
      "http://ex.org/x" := by
  decide

/-- Claim C1 (amended): for every triple field whose value the URL oracle
accepts and that matches some prefix in the supplied list, the shortened
display value is the value with every leftmost non-overlapping occurrence of
the first matching prefix removed (Rust str::replace semantics), not only
the first occurrence.  The last two conjuncts pin down removeAll: it leaves
a value without an occurrence unchanged, and it strips a leading occurrence
whole and continues removing behind it. -/
theorem C1_amended (v : String → Bool) (ps : List String) (t : Triple) :
    (∀ p, v t.subject = true →
      List.find? (fun q => strStartsWith t.subject q) ps = some p →
      (update_triple_with_links v ps t).subject_label = removeAll t.subject p) ∧
    (∀ p, v t.predicate = true →
      List.find? (fun q => strStartsWith t.predicate q) ps = some p →
      (update_triple_with_links v ps t).predicate = removeAll t.predicate p) ∧
    (∀ p, v t.object = true →
      List.find? (fun q => strStartsWith t.object q) ps = some p →
      (update_triple_with_links v ps t).object = removeAll t.object p) ∧
    (∀ s pat : String, occursB pat.data s.data = false → removeAll s pat = s) ∧
    (∀ s pat : String, pat.data ≠ [] → removeAll (pat ++ s) pat = removeAll s pat) := by
  refine ⟨?_, ?_, ?_, ?_, ?_⟩
  · intro p hv hf
    exact (update_match_subject v ps t p hv hf).1
  · intro p hv hf
    exact (update_match_predicate v ps t p hv hf).1
  · intro p hv hf
    exact (update_match_object v ps t p hv hf).1
  · intro s pat hocc
    exact removeAll_of_not_occurs s pat hocc
  · intro s pat hne
    exact removeAll_append_self pat s hne

/-- Witness for C1_amended at a concrete input: the doubled-prefix subject is
shortened to removeAll of itself, which evaluates to "x". -/
theorem C1_amended_witness :
    (update_triple_with_links isAbsUrlModel ["http://ex.org/"] tTwice).subject_label = "x" ∧
    removeAll tTwice.subject "http://ex.org/" = "x" :=
  ⟨((C1_amended isAbsUrlModel ["http://ex.org/"] tTwice).1 "http://ex.org/"
      (by decide) (by decide)).trans (by decide),
    by decide⟩

/-- Claim C4: when a prefix matches, the predicate and object fields are
themselves rewritten in place to the shortened form with the corresponding
link set to the original full value, while the subject field is never
rewritten and the shortened display string goes to the separate
subject_label instead. -/
theorem C4_in_place_asymmetry (v : String → Bool) (ps : List String) (t : Triple) :
    (update_triple_with_links v ps t).subject = t.subject ∧
    (∀ p, v t.subject = true →
      List.find? (fun q => strStartsWith t.subject q) ps = some p →
      (update_triple_with_links v ps t).subject_link = some t.subject ∧
      (update_triple_with_links v ps t).subject_label = removeAll t.subject p) ∧
    (∀ p, v t.predicate = true →
      List.find? (fun q => strStartsWith t.predicate q) ps = some p →
      (update_triple_with_links v ps t).predicate = removeAll t.predicate p ∧
      (update_triple_with_links v ps t).predicate_link = some t.predicate) ∧
    (∀ p, v t.object = true →
      List.find? (fun q => strStartsWith t.object q) ps = some p →
      (update_triple_with_links v ps t).object = removeAll t.object p ∧
      (update_triple_with_links v ps t).object_link = some t.object) := by
  refine ⟨update_subject_eq v ps t, ?_, ?_, ?_⟩
  · intro p hv hf
    exact ⟨(update_match_subject v ps t p hv hf).2, (update_match_subject v ps t p hv hf).1⟩
  · intro p hv hf
    exact update_match_predicate v ps t p hv hf
  · intro p hv hf
    exact update_match_object v ps t p hv hf

/-- Witness for C4 at the Alice scenario: the subject field survives
unshortened while the matched predicate is rewritten in place. -/
theorem C4_witness :
    (update_triple_with_links isAbsUrlModel ["http://ex.org/"] tAlice).subject =
      tAlice.subject ∧
    (update_triple_with_links isAbsUrlModel ["http://ex.org/"] tAlice).predicate =
      removeAll tAlice.predicate "http://ex.org/" ∧
    (update_triple_with_links isAbsUrlModel ["http://ex.org/"] tAlice).predicate_link =
      some tAlice.predicate :=
  ⟨(C4_in_place_asymmetry isAbsUrlModel ["http://ex.org/"] tAlice).1,
    (C4_in_place_asymmetry isAbsUrlModel ["http://ex.org/"] tAlice).2.2.1 "http://ex.org/"
      (by decide) (by decide)⟩

/-- Claim C5: a field whose value the URL oracle rejects, or that matches no
prefix in the supplied list, keeps its link unset and its display value
identical to the raw extracted value; the subject in that case keeps
subject_label equal to the raw subject string.  The hypotheses state the
field state exactly as convert_file's parse callback constructs it
(subject_label initialised to the raw subject, all links unset). -/
theorem C5_no_match_unchanged (v : String → Bool) (ps : List String) (t : Triple)
    (hl : t.subject_label = t.subject) (h1 : t.subject_link = none)
    (h2 : t.predicate_link = none) (h3 : t.object_link = none) :
    ((v t.subject = false ∨ List.find? (fun q => strStartsWith t.subject q) ps = none) →
      (update_triple_with_links v ps t).subject = t.subject ∧
      (update_triple_with_links v ps t).subject_link = none ∧
      (update_triple_with_links v ps t).subject_label = t.subject) ∧
    ((v t.predicate = false ∨ List.find? (fun q => strStartsWith t.predicate q) ps = none) →
      (update_triple_with_links v ps t).predicate = t.predicate ∧
      (update_triple_with_links v ps t).predicate_link = none) ∧
    ((v t.object = false ∨ List.find? (fun q => strStartsWith t.object q) ps = none) →
      (update_triple_with_links v ps t).object = t.object ∧
      (update_triple_with_links v ps t).object_link = none) := by
  refine ⟨?_, ?_, ?_⟩
  · intro h
    have hn := update_nomatch_subject v ps t h
    exact ⟨update_subject_eq v ps t, hn.2.trans h1, hn.1.trans hl⟩
  · intro h
    have hn := update_nomatch_predicate v ps t h
    exact ⟨hn.1, hn.2.trans h2⟩
  · intro h
    have hn := update_nomatch_object v ps t h
    exact ⟨hn.1, hn.2.trans h3⟩

/-- Witness for C5 at the Alice scenario: the literal object "Alice" is not
a URL, so it stays unchanged and unlinked. -/
theorem C5_witness :
    (update_triple_with_links isAbsUrlModel ["http://ex.org/"] tAlice).object =
      tAlice.object ∧
    (update_triple_with_links isAbsUrlModel ["http://ex.org/"] tAlice).object_link = none :=
  (C5_no_match_unchanged isAbsUrlModel ["http://ex.org/"] tAlice (by decide) (by decide)
    (by decide) (by decide)).2.2 (Or.inl (by decide))

/-- Claim C6 fails on the code as stated: with the prefix list psChain, the
predicate "http://a.example/http://b.example/x" is shortened by the first
run to "http://b.example/x", which is itself a valid URL matching the second
prefix, so a second run shortens it again and produces a different triple. -/
theorem C6_counterexample :
    update_triple_with_links isAbsUrlModel psChain
        (update_triple_with_links isAbsUrlModel psChain tChain) ≠
      update_triple_with_links isAbsUrlModel psChain tChain := by
  decide

/-- Claim C6 (amended): a second run of link resolution with the same prefix
list leaves the subject field, subject_label and subject_link unchanged
unconditionally, and leaves the predicate (respectively object) field and
link unchanged provided the once-shortened predicate (respectively object)
is not again a valid URL matching some prefix of the list.  Without that
proviso the claim is false (see the counterexample). -/
theorem C6_amended (v : String → Bool) (ps : List String) (t : Triple) :
    ((update_triple_with_links v ps (update_triple_with_links v ps t)).subject =
        (update_triple_with_links v ps t).subject ∧
      (update_triple_with_links v ps (update_triple_with_links v ps t)).subject_label =
        (update_triple_with_links v ps t).subject_label ∧
      (update_triple_with_links v ps (update_triple_with_links v ps t)).subject_link =
        (update_triple_with_links v ps t).subject_link) ∧
    ((v (update_triple_with_links v ps t).predicate = false ∨
        List.find? (fun q => strStartsWith (update_triple_with_links v ps t).predicate q) ps =
          none) →
      (update_triple_with_links v ps (update_triple_with_links v ps t)).predicate =
        (update_triple_with_links v ps t).predicate ∧
      (update_triple_with_links v ps (update_triple_with_links v ps t)).predicate_link =
        (update_triple_with_links v ps t).predicate_link) ∧
    ((v (update_triple_with_links v ps t).object = false ∨
        List.find? (fun q => strStartsWith (update_triple_with_links v ps t).object q) ps =
          none) →
      (update_triple_with_links v ps (update_triple_with_links v ps t)).object =
        (update_triple_with_links v ps t).object ∧
      (update_triple_with_links v ps (update_triple_with_links v ps t)).object_link =
        (update_triple_with_links v ps t).object_link) := by
  refine ⟨?_, ?_, ?_⟩
  · refine ⟨update_subject_eq v ps (update_triple_with_links v ps t), ?_⟩
    by_cases hv : v t.subject = true
    · cases hf : List.find? (fun q => strStartsWith t.subject q) ps with
      | some p =>
        have m1 := update_match_subject v ps t p hv hf
        have m2 := update_match_subject v ps (update_triple_with_links v ps t) p
          (by rw [update_subject_eq]; exact hv) (by rw [update_subject_eq]; exact hf)
        rw [update_subject_eq] at m2
        exact ⟨m2.1.trans m1.1.symm, m2.2.trans m1.2.symm⟩
      | none =>
        exact update_nomatch_subject v ps (update_triple_with_links v ps t)
          (Or.inr (by rw [update_subject_eq]; exact hf))
    · have hv' : v t.subject = false := by
        cases hb : v t.subject
        · rfl
        · exact absurd hb hv
      exact update_nomatch_subject v ps (update_triple_with_links v ps t)
        (Or.inl (by rw [update_subject_eq]; exact hv'))
  · intro h
    exact update_nomatch_predicate v ps (update_triple_with_links v ps t) h
  · intro h
    exact update_nomatch_object v ps (update_triple_with_links v ps t) h

/-- Witness for C6_amended at the Alice scenario: the shortened predicate
"name" is no longer a URL, so the second run leaves every stated field
alone. -/
theorem C6_amended_witness :
    (update_triple_with_links isAbsUrlModel ["http://ex.org/"]
        (update_triple_with_links isAbsUrlModel ["http://ex.org/"] tAlice)).subject_label =
      (update_triple_with_links isAbsUrlModel ["http://ex.org/"] tAlice).subject_label ∧
    (update_triple_with_links isAbsUrlModel ["http://ex.org/"]
        (update_triple_with_links isAbsUrlModel ["http://ex.org/"] tAlice)).predicate =
      (update_triple_with_links isAbsUrlModel ["http://ex.org/"] tAlice).predicate :=
  ⟨(C6_amended isAbsUrlModel ["http://ex.org/"] tAlice).1.2.1,
    ((C6_amended isAbsUrlModel ["http://ex.org/"] tAlice).2.1 (Or.inl (by decide))).1⟩

/-- Claim C7: for the input triple
(<http://ex.org/Alice>, <http://ex.org/name>, "Alice") with known prefix
http://ex.org/, resolution produces subject_label "Alice" with subject_link
the full subject URL, shortens the predicate in place to "name" with
predicate_link the full predicate URL, and leaves the literal object
"Alice", which is not a URL, unchanged and unlinked. -/
theorem C7_alice_scenario :
    (update_triple_with_links isAbsUrlModel ["http://ex.org/"] tAlice).subject_label =
      "Alice" ∧
    (update_triple_with_links isAbsUrlModel ["http://ex.org/"] tAlice).subject_link =
      some "http://ex.org/Alice" ∧
    (update_triple_with_links isAbsUrlModel ["http://ex.org/"] tAlice).predicate = "name" ∧
    (update_triple_with_links isAbsUrlModel ["http://ex.org/"] tAlice).predicate_link =
      some "http://ex.org/name" ∧
    (update_triple_with_links isAbsUrlModel ["http://ex.org/"] tAlice).object = "Alice" ∧
    (update_triple_with_links isAbsUrlModel ["http://ex.org/"] tAlice).object_link = none := by
  decide

/-- Claim C8: per field and for every prefix list, matching stops at the
first matching prefix in iteration order (whenever the list splits as
l1 ++ p :: l2 with everything in l1 failing and p matching, the result is
determined by p, so no later prefix matters), the link field when set holds
the original full value of the field, and each field ends in exactly one of
two states: link unset with the display value untouched, or link set to the
original with the matched prefix removed from the display value.  The two
states exclude each other because the link is none in one and some in the
other.  The hypotheses state the freshly extracted field state. -/
theorem C8_first_match_invariant (v : String → Bool) (ps : List String) (t : Triple)
    (hl : t.subject_label = t.subject) (h1 : t.subject_link = none)
    (h2 : t.predicate_link = none) (h3 : t.object_link = none) :
    ((v t.subject = false ∨ List.find? (fun q => strStartsWith t.subject q) ps = none) →
      (update_triple_with_links v ps t).subject_link = none ∧
      (update_triple_with_links v ps t).subject_label = t.subject) ∧
    (∀ p l1 l2, ps = l1 ++ p :: l2 → v t.subject = true →
      (∀ q ∈ l1, strStartsWith t.subject q = false) → strStartsWith t.subject p = true →
      (update_triple_with_links v ps t).subject_link = some t.subject ∧
      (update_triple_with_links v ps t).subject_label = removeAll t.subject p) ∧
    ((v t.predicate = false ∨ List.find? (fun q => strStartsWith t.predicate q) ps = none) →
      (update_triple_with_links v ps t).predicate_link = none ∧
      (update_triple_with_links v ps t).predicate = t.predicate) ∧
    (∀ p l1 l2, ps = l1 ++ p :: l2 → v t.predicate = true →
      (∀ q ∈ l1, strStartsWith t.predicate q = false) → strStartsWith t.predicate p = true →
      (update_triple_with_links v ps t).predicate_link = some t.predicate ∧
      (update_triple_with_links v ps t).predicate = removeAll t.predicate p) ∧
    ((v t.object = false ∨ List.find? (fun q => strStartsWith t.object q) ps = none) →
      (update_triple_with_links v ps t).object_link = none ∧
      (update_triple_with_links v ps t).object = t.object) ∧
    (∀ p l1 l2, ps = l1 ++ p :: l2 → v t.object = true →
      (∀ q ∈ l1, strStartsWith t.object q = false) → strStartsWith t.object p = true →
      (update_triple_with_links v ps t).object_link = some t.object ∧
      (update_triple_with_links v ps t).object = removeAll t.object p) := by
  refine ⟨?_, ?_, ?_, ?_, ?_, ?_⟩
  · intro h
    have hn := update_nomatch_subject v ps t h
    exact ⟨hn.2.trans h1, hn.1.trans hl⟩
  · intro p l1 l2 hps hv hall hp
    have hf : List.find? (fun q => strStartsWith t.subject q) ps = some p := by
      rw [hps]; exact find?_of_split _ p l1 l2 hall hp
    have hm := update_match_subject v ps t p hv hf
    exact ⟨hm.2, hm.1⟩
  · intro h
    have hn := update_nomatch_predicate v ps t h
    exact ⟨hn.2.trans h2, hn.1⟩
  · intro p l1 l2 hps hv hall hp
    have hf : List.find? (fun q => strStartsWith t.predicate q) ps = some p := by
      rw [hps]; exact find?_of_split _ p l1 l2 hall hp
    have hm := update_match_predicate v ps t p hv hf
    exact ⟨hm.2, hm.1⟩
  · intro h
    have hn := update_nomatch_object v ps t h
    exact ⟨hn.2.trans h3, hn.1⟩
  · intro p l1 l2 hps hv hall hp
    have hf : List.find? (fun q => strStartsWith t.object q) ps = some p := by
      rw [hps]; exact find?_of_split _ p l1 l2 hall hp
    have hm := update_match_object v ps t p hv hf
    exact ⟨hm.2, hm.1⟩

/-- Witness for C8 at the Alice scenario: the single known prefix is the
first match for the subject, the link keeps the original full URL and the
label is the shortened value. -/
theorem C8_witness :
    (update_triple_with_links isAbsUrlModel ["http://ex.org/"] tAlice).subject_link =
      some tAlice.subject ∧
    (update_triple_with_links isAbsUrlModel ["http://ex.org/"] tAlice).subject_label =
      removeAll tAlice.subject "http://ex.org/" :=
  (C8_first_match_invariant isAbsUrlModel ["http://ex.org/"] tAlice (by decide) (by decide)
      (by decide) (by decide)).2.1 "http://ex.org/" [] [] rfl (by decide) (by decide)
    (by decide)

/-- One step of convert_file's grouping loop (src/src/parser.rs lines
153-158): entry(triple.subject).or_insert_with(Vec::new).push(triple)
appends the triple to the entry holding its subject, creating the entry
together with its first triple when absent.  The association list stands for
the Rust HashMap; keys stay pairwise distinct, and since the groups are
sorted by key afterwards, the HashMap's unspecified iteration order does not
affect the final list. -/
def insertTriple (gs : List (String × List Triple)) (t : Triple) : List (String × List Triple) :=
  match gs with
  | [] => [(t.subject, [t])]
  | (s, ts) :: rest =>
    if s = t.subject then (s, ts ++ [t]) :: rest
    else (s, ts) :: insertTriple rest t

/-- The grouping loop of convert_file over the whole ingested triple list. -/
def groupBySubject (l : List Triple) : List (String × List Triple) :=
  l.foldl insertTriple []

/-- Lookup by subject in the grouping association list. -/
def lookupS (s : String) : List (String × List Triple) → Option (List Triple)
  | [] => none
  | (k, g) :: rest => if s = k then some g else lookupS s rest

/-- The keys of the grouping association list. -/
def keysOf (gs : List (String × List Triple)) : List String :=
  gs.map Prod.fst

/-- The triples of l carrying the given subject, in input order. -/
def filterBySubject (s : String) (l : List Triple) : List Triple :=
  l.filter (fun t => t.subject == s)

/-- Inserting a triple appends it to the list looked up at its subject and
leaves every other lookup unchanged. -/
theorem lookupS_insertTriple (t : Triple) (s : String) :
    ∀ gs, lookupS s (insertTriple gs t) =
      if s = t.subject then some ((lookupS s gs).getD [] ++ [t]) else lookupS s gs := by
  intro gs
  induction gs with
  | nil =>
    by_cases h : s = t.subject <;> simp [insertTriple, lookupS, h]
  | cons kg rest ih =>
    obtain ⟨k, g⟩ := kg
    by_cases hk : k = t.subject <;> by_cases hs : s = k <;>
      [skip; skip; skip; have hk2 : ¬t.subject = k := fun hh => hk hh.symm] <;>
      simp_all [insertTriple, lookupS]

/-- Inserting a triple adds its subject to the keys when absent and keeps
the keys otherwise. -/
theorem keysOf_insertTriple (t : Triple) :
    ∀ gs, keysOf (insertTriple gs t) =
      if t.subject ∈ keysOf gs then keysOf gs else keysOf gs ++ [t.subject] := by
  intro gs
  induction gs with
  | nil => simp [insertTriple, keysOf]
  | cons kg rest ih =>
    obtain ⟨k, g⟩ := kg
    by_cases hk : k = t.subject
    · subst hk
      simp [insertTriple, keysOf]
    · by_cases hmem : t.subject ∈ keysOf rest <;>
        simp_all [insertTriple, keysOf, Ne.symm hk]

/-- Inserting a triple preserves distinctness of the keys. -/
theorem keysOf_insertTriple_nodup (t : Triple) (gs : List (String × List Triple))
    (h : (keysOf gs).Nodup) : (keysOf (insertTriple gs t)).Nodup := by
  rw [keysOf_insertTriple]
  split
  · exact h
  · case isFalse hmem =>
      simp [List.nodup_append, h, hmem]

/-- The grouping fold appends exactly the triples with subject s to the
entry looked up at s. -/
theorem lookupS_foldl (s : String) :
    ∀ (l : List Triple) (acc : List (String × List Triple)),
      (lookupS s (l.foldl insertTriple acc)).getD [] =
        (lookupS s acc).getD [] ++ filterBySubject s l := by
  intro l
  induction l with
  | nil => intro acc; simp [filterBySubject]
  | cons t l ih =>
    intro acc
    rw [List.foldl_cons, ih (insertTriple acc t), lookupS_insertTriple]
    by_cases h : s = t.subject
    · subst h
      simp [filterBySubject, List.filter_cons]
    · have hb : (t.subject == s) = false := beq_eq_false_iff_ne.mpr fun hh => h hh.symm
      simp [filterBySubject, List.filter_cons, h, hb]

/-- The keys produced by the grouping fold are the subjects seen so far. -/
theorem mem_keys_foldl (s : String) :
    ∀ (l : List Triple) (acc : List (String × List Triple)),
      s ∈ keysOf (l.foldl insertTriple acc) ↔
        s ∈ keysOf acc ∨ s ∈ l.map (fun t => t.subject) := by
  intro l
  induction l with
  | nil => intro acc; simp
  | cons t l ih =>
    intro acc
    rw [List.foldl_cons, ih (insertTriple acc t), keysOf_insertTriple]
    by_cases h : t.subject ∈ keysOf acc
    · simp only [h, if_true, List.map_cons, List.mem_cons]
      constructor
      · intro hc; tauto
      · rintro (hc | hc | hc) <;> try tauto
        subst hc; tauto
    · simp only [h, if_false, List.mem_append, List.map_cons, List.mem_cons,
        List.mem_singleton]
      tauto

/-- The grouping fold keeps keys pairwise distinct. -/
theorem nodup_keys_foldl :
    ∀ (l : List Triple) (acc : List (String × List Triple)), (keysOf acc).Nodup →
      (keysOf (l.foldl insertTriple acc)).Nodup := by
  intro l
  induction l with
  | nil => intro acc h; exact h
  | cons t l ih => intro acc h; exact ih _ (keysOf_insertTriple_nodup t acc h)

/-- With distinct keys, membership in the association list determines the
lookup. -/
theorem lookupS_of_mem (s : String) (g : List Triple) :
    ∀ gs, (keysOf gs).Nodup → (s, g) ∈ gs → lookupS s gs = some g := by
  intro gs
  induction gs with
  | nil => intro _ h; simp at h
  | cons kg rest ih =>
    obtain ⟨k, g'⟩ := kg
    intro hnd hm
    rcases List.mem_cons.mp hm with heq | hm'
    · obtain ⟨hk, hg⟩ := Prod.mk.injEq s g k g' ▸ heq
      subst hk; subst hg
      simp [lookupS]
    · have hk : s ≠ k := by
        intro hsk
        subst hsk
        have : s ∈ keysOf rest := List.mem_map.mpr ⟨(s, g), hm', rfl⟩
        exact (List.nodup_cons.mp hnd).1 this
      simp only [lookupS, if_neg hk]
      exact ih (List.nodup_cons.mp hnd).2 hm'

/-- Every key of the association list carries some entry. -/
theorem exists_of_mem_keys (s : String) (gs : List (String × List Triple))
    (h : s ∈ keysOf gs) : ∃ g, (s, g) ∈ gs := by
  rcases List.mem_map.mp h with ⟨⟨k, g⟩, hm, hk⟩
  exact ⟨g, by simp only [← hk]; exact hm⟩

/-- An entry of the grouping map holds exactly the input triples with its
subject, in input order, and is non-empty. -/
theorem groupBySubject_mem_char (l : List Triple) (s : String) (g : List Triple)
    (h : (s, g) ∈ groupBySubject l) :
    g = filterBySubject s l ∧ g ≠ [] ∧ s ∈ l.map (fun t => t.subject) := by
  have hnd : (keysOf (groupBySubject l)).Nodup := nodup_keys_foldl l [] (by simp [keysOf])
  have hlk : lookupS s (groupBySubject l) = some g := lookupS_of_mem s g _ hnd h
  have hg : g = filterBySubject s l := by
    have hfold := lookupS_foldl s l []
    rw [groupBySubject] at hlk
    rw [hlk] at hfold
    simpa [lookupS] using hfold
  have hs : s ∈ l.map (fun t => t.subject) := by
    have hm : s ∈ keysOf (groupBySubject l) := List.mem_map.mpr ⟨(s, g), h, rfl⟩
    have := (mem_keys_foldl s l []).mp hm
    simpa [keysOf] using this
  refine ⟨hg, ?_, hs⟩
  rcases List.mem_map.mp hs with ⟨t, htl, hts⟩
  have hmem : t ∈ filterBySubject s l := by
    simp [filterBySubject, List.mem_filter, htl, hts]
  intro hnil
  rw [← hg, hnil] at hmem
  simp at hmem

/-- Every ingested triple produces the entry at its subject. -/
theorem groupBySubject_covers (l : List Triple) (t : Triple) (h : t ∈ l) :
    (t.subject, filterBySubject t.subject l) ∈ groupBySubject l := by
  have hs : t.subject ∈ keysOf (groupBySubject l) := by
    apply (mem_keys_foldl t.subject l []).mpr
    exact Or.inr (List.mem_map.mpr ⟨t, h, rfl⟩)
  rcases exists_of_mem_keys t.subject _ hs with ⟨g, hm⟩
  have hc := groupBySubject_mem_char l t.subject g hm
  rwa [hc.1] at hm

/-- Total number of triples stored in the association list. -/
def sumLens (gs : List (String × List Triple)) : Nat :=
  (gs.map (fun p => p.2.length)).sum

/-- Inserting one triple grows the stored count by one. -/
theorem sumLens_insertTriple (t : Triple) :
    ∀ gs, sumLens (insertTriple gs t) = sumLens gs + 1 := by
  intro gs
  induction gs with
  | nil => simp [insertTriple, sumLens]
  | cons kg rest ih =>
    obtain ⟨k, g⟩ := kg
    by_cases hk : k = t.subject <;>
      simp_all [insertTriple, sumLens] <;> omega

/-- The grouping fold stores every ingested triple, counted with
multiplicity. -/
theorem sumLens_foldl :
    ∀ (l : List Triple) (acc : List (String × List Triple)),
      sumLens (l.foldl insertTriple acc) = sumLens acc + l.length := by
  intro l
  induction l with
  | nil => intro acc; simp
  | cons t l ih =>
    intro acc
    rw [List.foldl_cons, ih (insertTriple acc t), sumLens_insertTriple]
    simp [List.length_cons]
    omega

/-- Codepoint-lexicographic at-most comparison of character lists.  On UTF-8
encodings codepoint order and byte order agree, so this is the comparison
a.subject.cmp(&b.subject) that convert_file's sort_by uses. -/
def lexLe : List Char → List Char → Bool
  | [], _ => true
  | _ :: _, [] => false
  | a :: as, b :: bs =>
    if a.toNat < b.toNat then true
    else if b.toNat < a.toNat then false
    else lexLe as bs

/-- lexLe is total. -/
theorem lexLe_total : ∀ a b : List Char, lexLe a b = true ∨ lexLe b a = true := by
  intro a
  induction a with
  | nil => intro b; left; rfl
  | cons x xs ih =>
    intro b
    cases b with
    | nil => right; rfl
    | cons y ys =>
      by_cases h1 : x.toNat < y.toNat
      · left; simp [lexLe, h1]
      · by_cases h2 : y.toNat < x.toNat
        · right; simp [lexLe, h2]
        · rcases ih ys with h | h
          · left; simp [lexLe, h1, h2, h]
          · right; simp [lexLe, h1, h2, h]

/-- lexLe is transitive. -/
theorem lexLe_trans :
    ∀ a b c : List Char, lexLe a b = true → lexLe b c = true → lexLe a c = true := by
  intro a
  induction a with
  | nil => intro b c _ _; rfl
  | cons x xs ih =>
    intro b c hab hbc
    cases b with
    | nil => simp [lexLe] at hab
    | cons y ys =>
      cases c with
      | nil => simp [lexLe] at hbc
      | cons z zs =>
        by_cases hxy1 : x.toNat < y.toNat
        · by_cases hyz1 : y.toNat < z.toNat
          · have hxz : x.toNat < z.toNat := Nat.lt_trans hxy1 hyz1
            simp [lexLe, hxz]
          · by_cases hyz2 : z.toNat < y.toNat
            · simp [lexLe, hyz1, hyz2] at hbc
            · have hxz : x.toNat < z.toNat := by omega
              simp [lexLe, hxz]
        · by_cases hxy2 : y.toNat < x.toNat
          · simp [lexLe, hxy1, hxy2] at hab
          · have hab2 : lexLe xs ys = true := by simpa [lexLe, hxy1, hxy2] using hab
            by_cases hyz1 : y.toNat < z.toNat
            · have hxz : x.toNat < z.toNat := by omega
              simp [lexLe, hxz]
            · by_cases hyz2 : z.toNat < y.toNat
              · simp [lexLe, hyz1, hyz2] at hbc
              · have hbc2 : lexLe ys zs = true := by simpa [lexLe, hyz1, hyz2] using hbc
                have hxz1 : ¬x.toNat < z.toNat := by omega
                have hxz2 : ¬z.toNat < x.toNat := by omega
                simp [lexLe, hxz1, hxz2]
                exact ih ys zs hab2 hbc2

/-- Construction of a SubjectGroup from one grouping entry (src/src/parser.rs
lines 160-168): the group copies subject_link and subject_label from the
first triple of the entry (triples[0] in the source).  headD with the
Default triple stands for the indexing; C10 shows the entry is never empty,
so the default is unreachable. -/
def mkGroup (p : String × List Triple) : SubjectGroup :=
  { subject := p.1
    subject_link := (p.2.headD defaultTriple).subject_link
    subject_label := (p.2.headD defaultTriple).subject_label
    triples := p.2 }

/-- The comparison of convert_file's sort_by: a.subject.cmp(&b.subject). -/
def groupLeB (a b : SubjectGroup) : Bool :=
  lexLe a.subject.data b.subject.data

/-- Insertion into a list sorted by subject. -/
def insertGroup (g : SubjectGroup) : List SubjectGroup → List SubjectGroup
  | [] => [g]
  | b :: l => if groupLeB g b then g :: b :: l else b :: insertGroup g l

/-- The sort_by call of convert_file (src/src/parser.rs line 169) as an
insertion sort; the Rust stable sort produces the same list because the
grouping keys are pairwise distinct, so any comparison sort by subject
agrees. -/
def sortGroups : List SubjectGroup → List SubjectGroup
  | [] => []
  | g :: l => insertGroup g (sortGroups l)

/-- The grouping-plus-sorting tail of convert_file: group the ingested
triples by subject, build the SubjectGroup records, sort them by subject. -/
def buildSubjectGroups (l : List Triple) : List SubjectGroup :=
  sortGroups ((groupBySubject l).map mkGroup)

/-- Membership through insertGroup. -/
theorem mem_insertGroup (g x : SubjectGroup) :
    ∀ l, x ∈ insertGroup g l ↔ x = g ∨ x ∈ l := by
  intro l
  induction l with
  | nil => simp [insertGroup]
  | cons b l ih =>
    simp only [insertGroup]
    split
    · simp only [List.mem_cons]
    · simp only [List.mem_cons, ih]
      tauto

/-- Sorting does not change membership. -/
theorem mem_sortGroups (x : SubjectGroup) :
    ∀ l, x ∈ sortGroups l ↔ x ∈ l := by
  intro l
  induction l with
  | nil => simp [sortGroups]
  | cons g l ih =>
    simp [sortGroups, mem_insertGroup, ih]

/-- insertGroup permutes a cons. -/
theorem insertGroup_perm (g : SubjectGroup) :
    ∀ l, (insertGroup g l).Perm (g :: l) := by
  intro l
  induction l with
  | nil => exact List.Perm.refl _
  | cons b l ih =>
    simp only [insertGroup]
    split
    · exact List.Perm.refl _
    · exact (ih.cons b).trans (List.Perm.swap g b l)

/-- sortGroups permutes its input. -/
theorem sortGroups_perm : ∀ l, (sortGroups l).Perm l := by
  intro l
  induction l with
  | nil => exact List.Perm.refl _
  | cons g l ih => exact (insertGroup_perm g (sortGroups l)).trans (ih.cons g)

/-- insertGroup preserves sortedness by subject. -/
theorem insertGroup_sorted (g : SubjectGroup) :
    ∀ l, l.Pairwise (fun a b => groupLeB a b = true) →
      (insertGroup g l).Pairwise (fun a b => groupLeB a b = true) := by
  intro l
  induction l with
  | nil => intro _; simp [insertGroup]
  | cons b l ih =>
    intro hp
    rcases List.pairwise_cons.mp hp with ⟨hb, hl⟩
    simp only [insertGroup]
    split
    · case isTrue hgb =>
        refine List.pairwise_cons.mpr ⟨?_, hp⟩
        intro x hx
        rcases List.mem_cons.mp hx with rfl | hx2
        · exact hgb
        · exact lexLe_trans g.subject.data b.subject.data x.subject.data hgb (hb x hx2)
    · case isFalse hgb =>
        have hbg : groupLeB b g = true := by
          rcases lexLe_total b.subject.data g.subject.data with h | h
          · exact h
          · exact absurd h hgb
        refine List.pairwise_cons.mpr ⟨?_, ih hl⟩
        intro x hx
        rcases (mem_insertGroup g x l).mp hx with rfl | hx2
        · exact hbg
        · exact hb x hx2

/-- sortGroups sorts by subject. -/
theorem sortGroups_sorted :
    ∀ l, (sortGroups l).Pairwise (fun a b => groupLeB a b = true) := by
  intro l
  induction l with
  | nil => simp [sortGroups]
  | cons g l ih => exact insertGroup_sorted g (sortGroups l) ih

/-- Every produced group holds exactly the input triples with its subject in
input order, is non-empty, and copies its metadata from its first triple. -/
theorem buildSubjectGroups_mem_char (l : List Triple) (g : SubjectGroup)
    (h : g ∈ buildSubjectGroups l) :
    g.triples = filterBySubject g.subject l ∧ g.triples ≠ [] ∧
    g.subject_label = (g.triples.headD defaultTriple).subject_label ∧
    g.subject_link = (g.triples.headD defaultTriple).subject_link := by
  have h1 : g ∈ (groupBySubject l).map mkGroup := (mem_sortGroups g _).mp h
  rcases List.mem_map.mp h1 with ⟨⟨s, ts⟩, hm, hg⟩
  have hc := groupBySubject_mem_char l s ts hm
  subst hg
  exact ⟨hc.1, hc.2.1, rfl, rfl⟩

/-- Every produced group is determined by its subject. -/
theorem buildSubjectGroups_mem_eq (l : List Triple) (g : SubjectGroup)
    (h : g ∈ buildSubjectGroups l) :
    g = mkGroup (g.subject, filterBySubject g.subject l) := by
  have h1 : g ∈ (groupBySubject l).map mkGroup := (mem_sortGroups g _).mp h
  rcases List.mem_map.mp h1 with ⟨⟨s, ts⟩, hm, hg⟩
  have hc := groupBySubject_mem_char l s ts hm
  subst hg
  simp only [mkGroup]
  rw [← hc.1]

/-- Every ingested triple's subject group is produced. -/
theorem buildSubjectGroups_covers (l : List Triple) (t : Triple) (h : t ∈ l) :
    mkGroup (t.subject, filterBySubject t.subject l) ∈ buildSubjectGroups l := by
  apply (mem_sortGroups _ _).mpr
  exact List.mem_map.mpr
    ⟨(t.subject, filterBySubject t.subject l), groupBySubject_covers l t h, rfl⟩

/-- Claim C2: the document model's subject groups appear in non-decreasing
codepoint-lexicographic order of their subject string (on UTF-8 this equals
Rust's byte order), and each group's triples are exactly the ingested
triples with that subject in ingest order — grouping never re-sorts within
a group. -/
theorem C2_sorted_groups (l : List Triple) :
    (buildSubjectGroups l).Pairwise (fun a b => groupLeB a b = true) ∧
    ∀ g, g ∈ buildSubjectGroups l → g.triples = filterBySubject g.subject l := by
  refine ⟨sortGroups_sorted _, ?_⟩
  intro g hg
  exact (buildSubjectGroups_mem_char l g hg).1

/-- A first concrete triple list for the grouping witnesses. -/
def tW1 : Triple :=
  { defaultTriple with subject := "b", subject_label := "b", predicate := "p", object := "1" }

/-- A second concrete triple, with a lexicographically smaller subject. -/
def tW2 : Triple :=
  { defaultTriple with subject := "a", subject_label := "a", predicate := "q", object := "2" }

/-- A concrete ingest-order triple list. -/
def lW : List Triple := [tW1, tW2]

/-- The group that lW produces for subject "a". -/
def gW : SubjectGroup := mkGroup ("a", [tW2])

/-- Witness for C2 on lW: the built groups are sorted and the group for
subject "a" holds exactly the matching triple. -/
theorem C2_sorted_groups_witness :
    (buildSubjectGroups lW).Pairwise (fun a b => groupLeB a b = true) ∧
    gW.triples = filterBySubject gW.subject lW :=
  ⟨(C2_sorted_groups lW).1, (C2_sorted_groups lW).2 gW (by decide)⟩

/-- Unfolding of membership in filterBySubject. -/
theorem mem_filterBySubject (s : String) (l : List Triple) (t : Triple) :
    t ∈ filterBySubject s l ↔ t ∈ l ∧ t.subject = s := by
  simp [filterBySubject, List.mem_filter]

/-- Claim C3: grouping partitions the ingested triples by subject — every
input triple lies in some produced group, two produced groups sharing a
triple are equal, and the group sizes sum to the input length, so counted
with multiplicity no triple is dropped or duplicated. -/
theorem C3_partition (l : List Triple) :
    (∀ t, t ∈ l → ∃ g, g ∈ buildSubjectGroups l ∧ t ∈ g.triples) ∧
    (∀ g1 g2, g1 ∈ buildSubjectGroups l → g2 ∈ buildSubjectGroups l →
      ∀ t : Triple, t ∈ g1.triples → t ∈ g2.triples → g1 = g2) ∧
    ((buildSubjectGroups l).map (fun g => g.triples.length)).sum = l.length := by
  refine ⟨?_, ?_, ?_⟩
  · intro t ht
    refine ⟨mkGroup (t.subject, filterBySubject t.subject l),
      buildSubjectGroups_covers l t ht, ?_⟩
    exact (mem_filterBySubject t.subject l t).mpr ⟨ht, rfl⟩
  · intro g1 g2 hm1 hm2 t ht1 ht2
    have hc1 := (buildSubjectGroups_mem_char l g1 hm1).1
    have hc2 := (buildSubjectGroups_mem_char l g2 hm2).1
    have hs1 : t.subject = g1.subject :=
      ((mem_filterBySubject g1.subject l t).mp (hc1 ▸ ht1)).2
    have hs2 : t.subject = g2.subject :=
      ((mem_filterBySubject g2.subject l t).mp (hc2 ▸ ht2)).2
    have hs : g1.subject = g2.subject := hs1.symm.trans hs2
    rw [buildSubjectGroups_mem_eq l g1 hm1, buildSubjectGroups_mem_eq l g2 hm2, hs]
  · have hperm : ((buildSubjectGroups l).map (fun g => g.triples.length)).Perm
        (((groupBySubject l).map mkGroup).map (fun g => g.triples.length)) :=
      (sortGroups_perm ((groupBySubject l).map mkGroup)).map _
    rw [hperm.sum_eq, List.map_map]
    have hmm : ((fun g : SubjectGroup => g.triples.length) ∘ mkGroup) =
        fun p : String × List Triple => p.2.length := rfl
    rw [hmm]
    have hfold := sumLens_foldl l []
    simpa [sumLens, groupBySubject] using hfold

/-- Witness for C3 on lW: two produced groups sharing the triple tW2 are
equal, and the group sizes sum to the length of lW. -/
theorem C3_partition_witness :
    gW = gW ∧
    ((buildSubjectGroups lW).map (fun g => g.triples.length)).sum = lW.length :=
  ⟨(C3_partition lW).2.1 gW gW (by decide) (by decide) tW2 (by decide) (by decide),
    (C3_partition lW).2.2⟩

/-- Claim C10: every SubjectGroup built by convert_file has a non-empty
triples list — a grouping entry is only created together with the push of
its first triple — so the source's read of triples[0] to copy the
group-level subject_label and subject_link never fails, and the copied
metadata really is that of the first triple of the group. -/
theorem C10_nonempty_groups (l : List Triple) (g : SubjectGroup)
    (h : g ∈ buildSubjectGroups l) :
    g.triples ≠ [] ∧
    g.subject_label = (g.triples.headD defaultTriple).subject_label ∧
    g.subject_link = (g.triples.headD defaultTriple).subject_link := by
  have hc := buildSubjectGroups_mem_char l g h
  exact ⟨hc.2.1, hc.2.2.1, hc.2.2.2⟩

/-- Witness for C10 on lW: the produced group for subject "a" is non-empty
and carries the metadata of its first triple. -/
theorem C10_nonempty_groups_witness :
    gW.triples ≠ [] ∧
    gW.subject_label = (gW.triples.headD defaultTriple).subject_label ∧
    gW.subject_link = (gW.triples.headD defaultTriple).subject_link :=
  C10_nonempty_groups lW gW (by decide)

/-- Outcome-level model of main (src/src/main.rs lines 83-112).  The I/O
collaborators are abstracted to their outcomes: createDirOk is whether
fs::create_dir_all succeeds, templatesOk whether the two add_raw_template
calls succeed (the source's expect aborts the run on failure), files lists
the discovered .ttl files in traversal order together with the outcome
convert_file produces for them (ok carries the returned output-relative
path, error the conversion failure message: read, path-stripping, page
render or write failure), and indexOk is whether generate_index succeeds. -/
structure RunInputs where
  createDirOk : Bool
  templatesOk : Bool
  files : List (String × Except String String)
  indexOk : Bool

/-- The per-file loop of main (src/src/main.rs lines 93-108): a successful
conversion appends an IndexEntry built from the output-relative path and the
file name; a failed one appends a report to the error channel and is
skipped; the loop always continues with the next file. -/
def processFiles (files : List (String × Except String String)) :
    List IndexEntry × List String :=
  files.foldl
    (fun acc f =>
      match f.2 with
      | Except.ok rel => (acc.1 ++ [{ path := rel, name := f.1 }], acc.2)
      | Except.error e => (acc.1, acc.2 ++ ["Error converting file " ++ f.1 ++ ": " ++ e]))
    ([], [])

/-- The index entry a file contributes when its conversion succeeds. -/
def indexEntryOf (f : String × Except String String) : Option IndexEntry :=
  match f.2 with
  | Except.ok rel => some { path := rel, name := f.1 }
  | Except.error _ => none

/-- Whether a file's conversion failed. -/
def isConvError (f : String × Except String String) : Bool :=
  match f.2 with
  | Except.ok _ => false
  | Except.error _ => true

/-- The error-channel line main prints for a failed conversion. -/
def logOf (f : String × Except String String) : String :=
  match f.2 with
  | Except.ok _ => ""
  | Except.error e => "Error converting file " ++ f.1 ++ ": " ++ e

/-- main as a function of the outcome inputs: setup failures abort before
any conversion, the conversion loop never aborts, and index generation is
the only remaining fatal step; on success the run yields the accumulated
index entries. -/
def runMain (r : RunInputs) : Except String (List IndexEntry) :=
  if r.createDirOk = false then Except.error "cannot create output directory"
  else if r.templatesOk = false then Except.error "failed to add template"
  else if r.indexOk = false then Except.error "index generation failed"
  else Except.ok (processFiles r.files).1

/-- Whether a run result is a success. -/
def exceptOk (e : Except String (List IndexEntry)) : Bool :=
  match e with
  | Except.ok _ => true
  | Except.error _ => false

/-- The conversion loop, run from any accumulator, keeps the successes as
index entries in order and the failures as error reports in order. -/
theorem processFiles_foldl :
    ∀ (files : List (String × Except String String)) (acc : List IndexEntry × List String),
      files.foldl
        (fun acc f =>
          match f.2 with
          | Except.ok rel => (acc.1 ++ [{ path := rel, name := f.1 }], acc.2)
          | Except.error e => (acc.1, acc.2 ++ ["Error converting file " ++ f.1 ++ ": " ++ e]))
        acc =
      (acc.1 ++ files.filterMap indexEntryOf,
        acc.2 ++ (files.filter isConvError).map logOf) := by
  intro files
  induction files with
  | nil => intro acc; simp
  | cons f files ih =>
    intro acc
    obtain ⟨name, res⟩ := f
    cases res with
    | ok rel =>
      rw [List.foldl_cons, ih]
      simp [indexEntryOf, isConvError, List.filterMap_cons, List.filter_cons]
    | error e =>
      rw [List.foldl_cons, ih]
      simp [indexEntryOf, isConvError, logOf, List.filterMap_cons, List.filter_cons]

/-- Claim C9: a per-file conversion failure does not stop the run — the
produced index entries are exactly the entries of the successfully converted
files in traversal order, every failed file is omitted from them, and every
failure is reported on the error channel — while the run as a whole fails
exactly when output-directory creation, template registration or index
generation fails, never because of a per-file failure. -/
theorem C9_per_file_errors (r : RunInputs) :
    (processFiles r.files).1 = r.files.filterMap indexEntryOf ∧
    (processFiles r.files).2 = (r.files.filter isConvError).map logOf ∧
    exceptOk (runMain r) = (r.createDirOk && r.templatesOk && r.indexOk) := by
  refine ⟨?_, ?_, ?_⟩
  · rw [processFiles, processFiles_foldl]
    simp
  · rw [processFiles, processFiles_foldl]
    simp
  · cases hc : r.createDirOk <;> cases ht : r.templatesOk <;> cases hi : r.indexOk <;>
      simp [runMain, exceptOk, hc, ht, hi]

